import Mathlib

/-!
Verification of the pico-bitcoin-wallet core (scan / balance / send) against
its natural-language specification.

The wallet's `main.rs` is shallowly embedded below.  External collaborators
(the bitcoind RPC client, the schnorr signer, the taproot sighash computation)
are passed in as explicit parameters; the persistent UTXO ledger (`db` module,
whose source is not part of this tree) is modelled from the specification's
ledger contract.  Machine integers (u64 satoshi amounts, block heights) are
modelled as `Nat`; the wallet's arithmetic uses `checked_sub`, embedded as
explicit comparisons, so no overflow semantics are needed.
-/

namespace PicoWallet

/-- A locking script, as its byte sequence. -/
abbrev Script := List Nat

/-- `bitcoin::OutPoint`: reference to one output of one transaction.
The 32-byte txid is modelled as the natural number with those bytes. -/
structure OutPt where
  txid : Nat
  vout : Nat
deriving DecidableEq, Repr

/-- `bitcoin::TxOut`: a value in satoshi and a locking script. -/
structure TxOutM where
  script_pubkey : Script
  value : Nat
deriving DecidableEq, Repr

/-- `bitcoin::TxIn` as built by `send`: an outpoint, a sequence number,
an (empty) script_sig and a witness stack. -/
structure TxInM where
  previous_output : OutPt
  sequence : Nat
  script_sig : Script
  witness : List (List Nat)
deriving DecidableEq, Repr

/-- `Sequence::ENABLE_RBF_NO_LOCKTIME` (0xFFFFFFFD). -/
def enableRbfNoLocktime : Nat := 0xFFFFFFFD

/-- The transaction built by `send`: version, lock time, inputs, outputs. -/
structure TxM where
  version : Int
  lock_time : Nat
  input : List TxInM
  output : List TxOutM
deriving DecidableEq, Repr

/-- One ledger record: an owned output with its spent flag. -/
structure Utxo where
  outpoint : OutPt
  value : Nat
  spent : Bool
deriving DecidableEq, Repr

/-- The persistent wallet state: the owned outputs and the scan watermark. -/
structure Db where
  utxos : List Utxo
  last_height : Nat
deriving DecidableEq, Repr

/-- Error taxonomy of the embedded operations. -/
inductive Err where
  | insufficientFunds (total : Nat)
  | notFound
  | broadcastRejected
  | fetchBlock (height : Nat)
deriving DecidableEq, Repr

/-- Modelled from the spec: `lastHeight() -> integer`, the scan watermark,
default 0 when empty (§4.2); the `db` module is not in the source tree. -/
def Db.get_last_height (db : Db) : Nat := db.last_height

/-- Modelled from the spec: `upsert(outpoint, value)`: inserts if absent; if
already present, leaves spent-flag untouched (§4.2). -/
def Db.upsert (db : Db) (o : OutPt) (v : Nat) : Db :=
  if db.utxos.any (fun u => u.outpoint = o) then db
  else { db with utxos := db.utxos ++ [{ outpoint := o, value := v, spent := false }] }

/-- Modelled from the spec: `setSpent(outpoint)`: fails with `NotFound` if the
outpoint is unknown; otherwise sets spent-flag true, idempotently (§4.2). -/
def Db.set_spent (db : Db) (o : OutPt) : Option Db :=
  if db.utxos.any (fun u => u.outpoint = o) then
    some { db with
           utxos := db.utxos.map fun u =>
             if u.outpoint = o then { u with spent := true } else u }
  else none

/-- Modelled from the spec: `unspentOutputs() -> sequence of (outpoint, value)`:
all outputs with spent-flag false (§4.2). -/
def Db.iter_unspent (db : Db) : List (OutPt × Nat) :=
  (db.utxos.filter fun u => !u.spent).map fun u => (u.outpoint, u.value)

/-- Upsert a batch of scanned outputs in stream order. -/
def Db.upsertAll (db : Db) (l : List (OutPt × Nat)) : Db :=
  l.foldl (fun d p => d.upsert p.1 p.2) db

/-- Collect a stream of results, stopping at the first error. -/
def collectResults : List (Except Err (OutPt × Nat)) → Except Err (List (OutPt × Nat))
  | [] => .ok []
  | .error e :: _ => .error e
  | .ok p :: rest =>
    match collectResults rest with
    | .error e => .error e
    | .ok l => .ok (p :: l)

/-- Modelled from the spec: `store_txos` consumes the scanned stream and, only
if no element failed, upserts every matched output and advances the watermark
to `toHeight`; a failed scan commits nothing, leaving the watermark unchanged
(§4.1 failure policy, §3 watermark invariant, §7). -/
def Db.store_txos (db : Db) (results : List (Except Err (OutPt × Nat)))
    (toHeight : Nat) : Db × Except Err Unit :=
  match collectResults results with
  | .error e => (db, .error e)
  | .ok l => ({ db.upsertAll l with last_height := toHeight }, .ok ())

/-- A transaction as seen by the scanner: its txid and its outputs. -/
structure ChainTx where
  txid : Nat
  output : List TxOutM
deriving DecidableEq, Repr

/-- A block as delivered by the node client: its ordered transactions. -/
structure Block where
  txdata : List ChainTx
deriving DecidableEq, Repr

/-- The `.enumerate().filter_map(..)` step of `scan`: outputs of one
transaction whose locking script equals the wallet's script, tagged with
their outpoint.  `i` is the index of the first output of the list. -/
def outputMatches (script : Script) (txid : Nat) : Nat → List TxOutM → List (OutPt × Nat)
  | _, [] => []
  | i, txout :: rest =>
    (if txout.script_pubkey = script
     then [({ txid := txid, vout := i }, txout.value)] else [])
    ++ outputMatches script txid (i + 1) rest

/-- All matching outputs of one transaction (`scan`'s per-transaction step). -/
def txMatches (script : Script) (tx : ChainTx) : List (OutPt × Nat) :=
  outputMatches script tx.txid 0 tx.output

/-- The heights visited by `scan`: `last_height + 1 ..= current_height`. -/
def heightsRange (last_height current_height : Nat) : List Nat :=
  List.range' (last_height + 1) (current_height - last_height)

/-- The stream `txos_iter` built by `scan` (main.rs): for each height in
range fetch the block; a fetch failure contributes a single error element,
a fetched block contributes its matching outputs. -/
def scanResults (getBlock : Nat → Except Err Block) (script : Script)
    (last_height current_height : Nat) : List (Except Err (OutPt × Nat)) :=
  (heightsRange last_height current_height).flatMap fun h =>
    match getBlock h with
    | .ok b => (b.txdata.flatMap (txMatches script)).map .ok
    | .error e => [.error e]

/-- The matched outputs of a fully successful scan over the range. -/
def matchedOutputs (getBlock : Nat → Except Err Block) (script : Script)
    (last_height current_height : Nat) : List (OutPt × Nat) :=
  (heightsRange last_height current_height).flatMap fun h =>
    match getBlock h with
    | .ok b => b.txdata.flatMap (txMatches script)
    | .error _ => []

/-- The scan over an explicit height range: build the stream and hand it to
`store_txos` together with the new watermark. -/
def scanCore (getBlock : Nat → Except Err Block) (script : Script)
    (last_height current_height : Nat) (db : Db) : Db × Except Err Unit :=
  db.store_txos (scanResults getBlock script last_height current_height)
    current_height

/-- `scan` (main.rs): the range starts above the stored watermark and ends at
the node's best height; the node client is the `getBlock` parameter. -/
def scan (getBlock : Nat → Except Err Block) (script : Script)
    (current_height : Nat) (db : Db) : Db × Except Err Unit :=
  scanCore getBlock script (db.get_last_height) current_height db

/-- `balance` (main.rs): fold over `iter_unspent`, adding up the amounts. -/
def balance (db : Db) : Nat :=
  db.iter_unspent.foldl (fun total p => total + p.2) 0

theorem foldl_add_eq_sum (l : List Nat) (n : Nat) :
    l.foldl (fun a b => a + b) n = n + l.sum := by
  induction l generalizing n with
  | nil => simp
  | cons x xs ih => simp [List.foldl_cons, ih, Nat.add_assoc]

/-- The balance as summed by `balance` equals the sum of the values of the
ledger records whose spent flag is false. -/
theorem balance_spec (db : Db) :
    balance db = ((db.utxos.filter fun u => !u.spent).map Utxo.value).sum := by
  have h : db.iter_unspent.foldl (fun total p => total + p.2) 0
      = (db.iter_unspent.map Prod.snd).foldl (fun a b => a + b) 0 := by
    rw [List.foldl_map]
  rw [balance, h, foldl_add_eq_sum, Nat.zero_add, Db.iter_unspent,
    List.map_map]
  rfl

/-!  The transaction builder (`send`).  The weight prediction and the
fee-rate multiplication embed the rust-bitcoin 0.30 library functions the
code calls (`transaction::predict_weight`, `InputWeightPrediction::from_slice`,
`Weight * FeeRate`); the signer, sighash computation, key tweak and broadcast
are external collaborators taken as parameters. -/

/-- Length in bytes of the Bitcoin variable-length integer encoding. -/
def varIntLen (n : Nat) : Nat :=
  if n < 0xFD then 1
  else if n < 0x10000 then 3
  else if n < 0x100000000 then 5
  else 9

/-- `transaction::InputWeightPrediction` (rust-bitcoin 0.30). -/
structure InputWeightPrediction where
  script_size : Nat
  witness_size : Nat
deriving DecidableEq, Repr

/-- `InputWeightPrediction::from_slice` (rust-bitcoin 0.30): sizes include
their compact-size length prefixes. -/
def inputWeightPredictionFromSlice (input_script_len : Nat)
    (witness_element_lengths : List Nat) : InputWeightPrediction :=
  let total_size :=
    witness_element_lengths.foldl (fun acc l => acc + l + varIntLen l) 0
  let count := witness_element_lengths.length
  { script_size := input_script_len + varIntLen input_script_len,
    witness_size := if count = 0 then 0 else total_size + varIntLen count }

/-- `transaction::predict_weight` (rust-bitcoin 0.30), in weight units. -/
def predict_weight (inputs : List InputWeightPrediction)
    (output_script_lens : List Nat) : Nat :=
  let input_count := inputs.length
  let inputsWeightAcc :=
    inputs.foldl (fun acc p => acc + p.script_size * 4 + p.witness_size) 0
  let withWitnesses := (inputs.filter fun p => p.witness_size ≠ 0).length
  let output_count := output_script_lens.length
  let output_scripts_size :=
    output_script_lens.foldl (fun acc l => acc + l + varIntLen l) 0
  let input_weight := inputsWeightAcc + input_count * 4 * (32 + 4 + 4)
  let output_size := 8 * output_count + output_scripts_size
  let non_input_size :=
    4 + 4 + varIntLen input_count + varIntLen output_count + output_size
  if withWitnesses = 0 then non_input_size * 4 + input_weight
  else non_input_size * 4 + input_weight + input_count - withWitnesses + 2

/-- `FeeRate::BROADCAST_MIN` (1 sat/vB), in satoshi per 1000 weight units. -/
def broadcastMinFeeRate : Nat := 250

/-- `Weight * FeeRate` (rust-bitcoin 0.30): satoshi per kwu times weight
units, divided by 1000. -/
def weightTimesFeeRate (wu rate : Nat) : Nat := wu * rate / 1000

/-- `InputWeightPrediction::from_slice(0, &[64])`: the single-signature
taproot key-path witness prediction used by `send` for every input. -/
def keySpendPrediction : InputWeightPrediction :=
  inputWeightPredictionFromSlice 0 [64]

/-- A 64-byte schnorr signature (secp256k1 signatures are exactly 64 bytes). -/
abbrev Sig := { l : List Nat // l.length = 64 }

/-- `TapSighashType` (only `Default` is used by the wallet). -/
inductive TapSighashType where
  | default
  | all
  | sigNone
  | single
deriving DecidableEq, Repr

/-- External collaborators of `send`: the taproot key tweak, the taproot
key-spend sighash (a function of exactly the transaction data BIP341 commits
to: version, lock time, the inputs' outpoints and sequences, the outputs, the
previous outputs of all inputs, the input index and the sighash type — never
of any witness), the schnorr signer, and the node's broadcast verdict. -/
structure SendEnv where
  tapTweak : Nat → Nat
  sighashFn : Int → Nat → List (OutPt × Nat) → List TxOutM → List TxOutM →
    Nat → TapSighashType → Nat
  signSchnorr : Nat → Nat → Sig
  broadcastOk : TxM → Bool

/-- The `for result in db.iter_unspent()` loop of `send`: push one `TxIn` and
one reconstructed previous output (the wallet's own script with the ledger's
recorded value) per unspent ledger entry. -/
def buildTxins (script_pubkey : Script) (unspent : List (OutPt × Nat)) :
    List TxInM × List TxOutM :=
  unspent.foldl
    (fun acc p =>
      (acc.1 ++ [{ previous_output := p.1, sequence := enableRbfNoLocktime,
                   script_sig := [], witness := [] }],
       acc.2 ++ [{ script_pubkey := script_pubkey, value := p.2 }]))
    ([], [])

/-- The previous outputs `send` presents to the sighash computation. -/
def sendPrevouts (script_pubkey : Script) (db : Db) : List TxOutM :=
  (buildTxins script_pubkey db.iter_unspent).2

/-- `total_amt` of `send`: the sum of the reconstructed prevout values. -/
def sendTotal (script_pubkey : Script) (db : Db) : Nat :=
  (sendPrevouts script_pubkey db).foldl (fun acc t => acc + t.value) 0

/-- The predicted weight of `send`'s transaction: one key-path witness per
input, and the payee and change script lengths. -/
def sendWeight (payee_script_pubkey script_pubkey : Script) (db : Db) : Nat :=
  predict_weight
    ((buildTxins script_pubkey db.iter_unspent).1.map fun _ => keySpendPrediction)
    [payee_script_pubkey.length, script_pubkey.length]

/-- `fee` of `send`: predicted weight times the minimum relay fee rate. -/
def sendFee (payee_script_pubkey script_pubkey : Script) (db : Db) : Nat :=
  weightTimesFeeRate (sendWeight payee_script_pubkey script_pubkey db)
    broadcastMinFeeRate

/-- The signing loop of `send`: for each input index compute the taproot
key-spend sighash of the whole transaction over all prevouts with sighash
type `Default`, sign it with the tweaked key, and set the witness to the
lone 64-byte signature. -/
def signAllInputs (env : SendEnv) (key_pair : Nat) (prevouts : List TxOutM)
    (tx : TxM) : TxM :=
  { tx with
    input := tx.input.enum.map fun p =>
      { p.2 with
        witness := [(env.signSchnorr key_pair
          (env.sighashFn tx.version tx.lock_time
            (tx.input.map fun t => (t.previous_output, t.sequence))
            tx.output prevouts p.1 TapSighashType.default)).val] } }

/-- The fully built and signed transaction of `send` (assuming the two
funds checks pass). -/
def builtTx (env : SendEnv) (sk : Nat) (payee_script_pubkey : Script)
    (amount : Nat) (script_pubkey : Script) (db : Db) : TxM :=
  let key_pair := env.tapTweak sk
  let txins := (buildTxins script_pubkey db.iter_unspent).1
  let prevouts := sendPrevouts script_pubkey db
  let total_amt := sendTotal script_pubkey db
  let fee := sendFee payee_script_pubkey script_pubkey db
  let change_amount := total_amt - amount - fee
  let payment : TxOutM := { script_pubkey := payee_script_pubkey, value := amount }
  let change : TxOutM := { script_pubkey := script_pubkey, value := change_amount }
  signAllInputs env key_pair prevouts
    { version := 2, lock_time := 0, input := txins,
      output := [payment, change] }

/-- The `for input in transaction.input` loop after broadcast: mark each
consumed outpoint spent, propagating a `NotFound` failure. -/
def markAllSpent (db : Db) : List TxInM → Db × Except Err Unit
  | [] => (db, .ok ())
  | txin :: rest =>
    match db.set_spent txin.previous_output with
    | none => (db, .error .notFound)
    | some db' => markAllSpent db' rest

/-- `send` (main.rs): build inputs from every unspent ledger entry, check the
funds twice (`checked_sub` of the amount, then of the fee), build and sign the
transaction, broadcast it, and only then mark the consumed outpoints spent. -/
def send (env : SendEnv) (sk : Nat) (payee_script_pubkey : Script)
    (amount : Nat) (script_pubkey : Script) (db : Db) :
    Db × Except Err TxM :=
  let total_amt := sendTotal script_pubkey db
  if total_amt < amount then
    (db, .error (.insufficientFunds total_amt))
  else if total_amt - amount < sendFee payee_script_pubkey script_pubkey db then
    (db, .error (.insufficientFunds total_amt))
  else
    if env.broadcastOk (builtTx env sk payee_script_pubkey amount script_pubkey db) then
      match markAllSpent db
          (builtTx env sk payee_script_pubkey amount script_pubkey db).input with
      | (db', .ok _) =>
        (db', .ok (builtTx env sk payee_script_pubkey amount script_pubkey db))
      | (db', .error e) => (db', .error e)
    else (db, .error .broadcastRejected)

/-! Helper lemmas about the builder. -/

theorem buildTxins_go (s : Script) (l : List (OutPt × Nat))
    (a : List TxInM) (b : List TxOutM) :
    l.foldl
      (fun acc p =>
        (acc.1 ++ [{ previous_output := p.1, sequence := enableRbfNoLocktime,
                     script_sig := [], witness := [] }],
         acc.2 ++ [{ script_pubkey := s, value := p.2 }]))
      (a, b)
    = (a ++ l.map fun p =>
         ({ previous_output := p.1, sequence := enableRbfNoLocktime,
            script_sig := [], witness := [] } : TxInM),
       b ++ l.map fun p => ({ script_pubkey := s, value := p.2 } : TxOutM)) := by
  induction l generalizing a b with
  | nil => simp
  | cons x xs ih => simp [List.foldl_cons, ih]

theorem buildTxins_eq (s : Script) (l : List (OutPt × Nat)) :
    buildTxins s l
    = (l.map fun p =>
         ({ previous_output := p.1, sequence := enableRbfNoLocktime,
            script_sig := [], witness := [] } : TxInM),
       l.map fun p => ({ script_pubkey := s, value := p.2 } : TxOutM)) := by
  have h := buildTxins_go s l [] []
  simpa [buildTxins] using h

theorem sendPrevouts_eq (s : Script) (db : Db) :
    sendPrevouts s db
    = db.iter_unspent.map fun p => ({ script_pubkey := s, value := p.2 } : TxOutM) := by
  rw [sendPrevouts, buildTxins_eq]

theorem sendTotal_eq (s : Script) (db : Db) :
    sendTotal s db = (db.iter_unspent.map Prod.snd).sum := by
  rw [sendTotal, sendPrevouts_eq]
  have h : (db.iter_unspent.map fun p =>
        ({ script_pubkey := s, value := p.2 } : TxOutM)).foldl
        (fun acc t => acc + t.value) 0
      = (db.iter_unspent.map Prod.snd).foldl (fun a b => a + b) 0 := by
    rw [List.foldl_map, List.foldl_map]
  rw [h, foldl_add_eq_sum, Nat.zero_add]

theorem varIntLen_pos (n : Nat) : 1 ≤ varIntLen n := by
  unfold varIntLen
  split
  · exact Nat.le_refl 1
  · split
    · omega
    · split <;> omega

theorem predict_weight_two_outputs_ge (preds : List InputWeightPrediction)
    (a b : Nat) : 104 ≤ predict_weight preds [a, b] := by
  have h1 : 1 ≤ varIntLen preds.length := varIntLen_pos _
  have ha : 1 ≤ varIntLen a := varIntLen_pos a
  have hb : 1 ≤ varIntLen b := varIntLen_pos b
  have hk : (preds.filter fun p => p.witness_size ≠ 0).length ≤ preds.length :=
    List.length_filter_le _ _
  unfold predict_weight
  simp only [List.length_cons, List.length_nil, List.foldl_cons, List.foldl_nil]
  have h2 : varIntLen 2 = 1 := rfl
  rw [h2]
  split <;> omega

theorem sendFee_ge (payee s : Script) (db : Db) :
    26 ≤ sendFee payee s db := by
  have hw : 104 ≤ sendWeight payee s db := predict_weight_two_outputs_ge _ _ _
  have : (26 : Nat) * 1000 ≤ sendWeight payee s db * broadcastMinFeeRate := by
    have := Nat.mul_le_mul_right broadcastMinFeeRate hw
    simpa [broadcastMinFeeRate] using this
  calc 26 = 26 * 1000 / 1000 := by norm_num
    _ ≤ sendWeight payee s db * broadcastMinFeeRate / 1000 :=
        Nat.div_le_div_right this
    _ = sendFee payee s db := rfl

theorem sendFee_pos (payee s : Script) (db : Db) :
    0 < sendFee payee s db :=
  Nat.lt_of_lt_of_le (by norm_num) (sendFee_ge payee s db)

/-- C1: if the unspent set is empty, or `total < amount`, or
`total - amount < fee`, then `send` fails with `InsufficientFunds` and the
ledger — owned outputs, spent flags and watermark — is returned unchanged. -/
theorem send_insufficient_funds (env : SendEnv) (sk : Nat)
    (payee s : Script) (amount : Nat) (db : Db)
    (h : db.iter_unspent = [] ∨ sendTotal s db < amount ∨
      sendTotal s db - amount < sendFee payee s db) :
    send env sk payee amount s db
      = (db, .error (.insufficientFunds (sendTotal s db))) := by
  unfold send
  rcases h with he | hlt | hfee
  · have h0 : sendTotal s db = 0 := by
      rw [sendTotal_eq, he]
      rfl
    rcases Nat.eq_zero_or_pos amount with ha | ha
    · have hna : ¬ sendTotal s db < amount := by omega
      have hf : sendTotal s db - amount < sendFee payee s db := by
        have := sendFee_pos payee s db
        omega
      simp [hna, hf]
    · have : sendTotal s db < amount := by omega
      simp [this]
  · simp [hlt]
  · by_cases hlt' : sendTotal s db < amount
    · simp [hlt']
    · simp [hlt', hfee]

/-- A trivial instantiation of the external collaborators, used to witness
the theorems on concrete inputs. -/
def trivSig : Sig := ⟨List.replicate 64 0, by simp⟩

/-- Collaborators that always broadcast successfully, with a trivial signer. -/
def trivEnv : SendEnv :=
  { tapTweak := id, sighashFn := fun _ _ _ _ _ _ _ => 0,
    signSchnorr := fun _ _ => trivSig, broadcastOk := fun _ => true }

/-- Collaborators whose node rejects every broadcast. -/
def rejectEnv : SendEnv := { trivEnv with broadcastOk := fun _ => false }

/-- The empty ledger. -/
def dbEmpty : Db := { utxos := [], last_height := 0 }

/-- A one-entry ledger: a single unspent output worth 254 satoshi. -/
def dbOne : Db :=
  { utxos := [{ outpoint := { txid := 7, vout := 0 }, value := 254,
                spent := false }],
    last_height := 0 }

/-- A 34-byte payee locking script. -/
def payeeW : Script := List.replicate 34 2

/-- A 34-byte owned locking script. -/
def ownW : Script := List.replicate 34 1

/-- The witness of `send_insufficient_funds`: the empty ledger cannot fund a
3-satoshi payment, and the ledger is returned unchanged. -/
theorem send_insufficient_funds_witness :
    send trivEnv 0 payeeW 3 ownW dbEmpty
      = (dbEmpty, .error (.insufficientFunds 0)) := by
  have h := send_insufficient_funds trivEnv 0 payeeW ownW 3 dbEmpty (Or.inl rfl)
  have h0 : sendTotal ownW dbEmpty = 0 := rfl
  rw [h0] at h
  exact h

/-- A successful `send` returns exactly the transaction it built and signed. -/
theorem send_ok_tx (env : SendEnv) (sk : Nat) (payee s : Script)
    (amount : Nat) (db : Db) (tx : TxM)
    (h : (send env sk payee amount s db).2 = .ok tx) :
    tx = builtTx env sk payee amount s db := by
  unfold send at h
  by_cases h1 : sendTotal s db < amount
  · simp [h1] at h
  · by_cases h2 : sendTotal s db - amount < sendFee payee s db
    · simp [h1, h2] at h
    · by_cases h3 : env.broadcastOk (builtTx env sk payee amount s db)
      · simp only [h1, h2, h3, if_false, if_true, ite_false, ite_true] at h
        rcases hm : markAllSpent db (builtTx env sk payee amount s db).input with
          ⟨db', r⟩
        rw [hm] at h
        cases r with
        | ok _ => simpa using h.symm
        | error e => simp at h
      · simp [h1, h2, h3] at h

/-- C2: for every successful `send`, the transaction has exactly the two
outputs payment `(destinationScript, amount)` and change
`(ownedScript, total - amount - fee)` — the change output emitted
unconditionally, even at value zero — and the fee is the predicted weight
(one single-signature key-path witness per input plus the two output script
sizes) times the fixed minimum relay fee rate. -/
theorem send_two_outputs_and_fee (env : SendEnv) (sk : Nat)
    (payee s : Script) (amount : Nat) (db : Db) (tx : TxM)
    (h : (send env sk payee amount s db).2 = .ok tx) :
    tx.output
      = [{ script_pubkey := payee, value := amount },
         { script_pubkey := s,
           value := sendTotal s db - amount - sendFee payee s db }]
    ∧ sendFee payee s db
      = weightTimesFeeRate
          (predict_weight
            (List.replicate db.iter_unspent.length keySpendPrediction)
            [payee.length, s.length])
          broadcastMinFeeRate := by
  have htx := send_ok_tx env sk payee s amount db tx h
  subst htx
  constructor
  · simp [builtTx, signAllInputs]
  · rw [sendFee, sendWeight, buildTxins_eq]
    congr 1
    congr 1
    simp [Function.comp_def, List.map_const']

/-- The transaction of the witness scenario: one 254-satoshi input, a
100-satoshi payment, a 154-satoshi fee and a zero-valued change output. -/
def txW : TxM := builtTx trivEnv 0 payeeW 100 ownW dbOne

/-- The witness of `send_two_outputs_and_fee`: sending 100 satoshi from the
254-satoshi ledger pays a 154-satoshi fee and emits the change output even
though its value is zero. -/
theorem send_two_outputs_and_fee_witness :
    txW.output = [{ script_pubkey := payeeW, value := 100 },
                  { script_pubkey := ownW, value := 0 }] := by
  have h := (send_two_outputs_and_fee trivEnv 0 payeeW ownW 100 dbOne txW rfl).1
  rw [h]
  rfl

/-- The outpoint `o` is marked spent in `db`: every ledger record carrying it
has its spent flag set. -/
def outpointSpent (db : Db) (o : OutPt) : Prop :=
  ∀ u ∈ db.utxos, u.outpoint = o → u.spent = true

theorem set_spent_of_mem (db : Db) (o : OutPt)
    (h : o ∈ db.utxos.map Utxo.outpoint) :
    db.set_spent o
      = some { db with utxos := db.utxos.map fun u =>
          if u.outpoint = o then { u with spent := true } else u } := by
  have hany : db.utxos.any (fun u => u.outpoint = o) = true := by
    simp only [List.any_eq_true, decide_eq_true_eq]
    rcases List.mem_map.mp h with ⟨u, hu, rfl⟩
    exact ⟨u, hu, rfl⟩
  simp [Db.set_spent, hany]

theorem map_outpoint_set (utxos : List Utxo) (o : OutPt) :
    (utxos.map fun u =>
      if u.outpoint = o then { u with spent := true } else u).map Utxo.outpoint
    = utxos.map Utxo.outpoint := by
  rw [List.map_map]
  apply List.map_congr_left
  intro u _
  by_cases h : u.outpoint = o <;> simp [h]

theorem outpointSpent_set_self (db : Db) (o : OutPt) :
    outpointSpent
      { db with utxos := db.utxos.map fun u =>
          if u.outpoint = o then { u with spent := true } else u } o := by
  intro u hu huo
  rcases List.mem_map.mp hu with ⟨v, hv, rfl⟩
  by_cases h : v.outpoint = o
  · simp [h]
  · simp only [if_neg h] at huo ⊢
    exact absurd huo h

theorem outpointSpent_set_mono (db : Db) (o o' : OutPt)
    (h : outpointSpent db o') :
    outpointSpent
      { db with utxos := db.utxos.map fun u =>
          if u.outpoint = o then { u with spent := true } else u } o' := by
  intro u hu huo
  rcases List.mem_map.mp hu with ⟨v, hv, rfl⟩
  by_cases hvo : v.outpoint = o
  · simp [hvo]
  · simp only [if_neg hvo] at huo ⊢
    exact h v hv huo

theorem markAllSpent_sound : ∀ (l : List TxInM) (db : Db),
    (∀ txin ∈ l, txin.previous_output ∈ db.utxos.map Utxo.outpoint) →
    (markAllSpent db l).2 = .ok ()
    ∧ ((markAllSpent db l).1).utxos.map Utxo.outpoint
        = db.utxos.map Utxo.outpoint
    ∧ ((markAllSpent db l).1).last_height = db.last_height
    ∧ (∀ txin ∈ l, outpointSpent (markAllSpent db l).1 txin.previous_output)
    ∧ (∀ o, outpointSpent db o → outpointSpent (markAllSpent db l).1 o) := by
  intro l
  induction l with
  | nil =>
    intro db _
    refine ⟨rfl, rfl, rfl, ?_, fun o h => h⟩
    intro txin h
    exact absurd h (List.not_mem_nil txin)
  | cons t rest ih =>
    intro db h
    have hm : t.previous_output ∈ db.utxos.map Utxo.outpoint :=
      h t (List.mem_cons_self t rest)
    have hstep := set_spent_of_mem db t.previous_output hm
    have hmark : markAllSpent db (t :: rest)
        = markAllSpent
            { db with utxos := db.utxos.map fun u =>
                if u.outpoint = t.previous_output then { u with spent := true }
                else u } rest := by
      rw [markAllSpent, hstep]
    have hrest := ih
      { db with utxos := db.utxos.map fun u =>
          if u.outpoint = t.previous_output then { u with spent := true }
          else u }
      (by
        intro txin htxin
        rw [map_outpoint_set]
        exact h txin (List.mem_cons_of_mem t htxin))
    rw [hmark]
    refine ⟨hrest.1, ?_, hrest.2.2.1, ?_, ?_⟩
    · rw [hrest.2.1, map_outpoint_set]
    · intro txin htxin
      rcases List.mem_cons.mp htxin with rfl | hr
      · exact hrest.2.2.2.2 txin.previous_output
          (outpointSpent_set_self db txin.previous_output)
      · exact hrest.2.2.2.1 txin hr
    · intro o ho
      exact hrest.2.2.2.2 o (outpointSpent_set_mono db t.previous_output o ho)

theorem map_po_enumFrom (g : Nat × TxInM → TxInM)
    (hg : ∀ p, (g p).previous_output = p.2.previous_output) :
    ∀ (m : List TxInM) (n : Nat),
      (((List.enumFrom n m).map g).map fun t => t.previous_output)
        = m.map fun t => t.previous_output := by
  intro m
  induction m with
  | nil => intro n; rfl
  | cons t rest ih =>
    intro n
    simp only [List.enumFrom, List.map_cons, hg, ih (n + 1)]

theorem map_po_enum (g : Nat × TxInM → TxInM)
    (hg : ∀ p, (g p).previous_output = p.2.previous_output)
    (m : List TxInM) :
    ((m.enum.map g).map fun t => t.previous_output)
      = m.map fun t => t.previous_output :=
  map_po_enumFrom g hg m 0

theorem builtTx_input_po (env : SendEnv) (sk : Nat) (payee s : Script)
    (amount : Nat) (db : Db) :
    (builtTx env sk payee amount s db).input.map (fun t => t.previous_output)
      = db.iter_unspent.map Prod.fst := by
  rw [builtTx]
  simp only [signAllInputs]
  have h1 : ((buildTxins s db.iter_unspent).1.map fun t => t.previous_output)
      = db.iter_unspent.map Prod.fst := by
    rw [buildTxins_eq, List.map_map]
    rfl
  rw [← h1]
  apply map_po_enum
  intro p
  rfl

theorem builtTx_inputs_mem (env : SendEnv) (sk : Nat) (payee s : Script)
    (amount : Nat) (db : Db) :
    ∀ txin ∈ (builtTx env sk payee amount s db).input,
      txin.previous_output ∈ db.utxos.map Utxo.outpoint := by
  intro txin htxin
  have h1 : txin.previous_output
      ∈ (builtTx env sk payee amount s db).input.map
          (fun t => t.previous_output) :=
    List.mem_map.mpr ⟨txin, htxin, rfl⟩
  rw [builtTx_input_po] at h1
  rcases List.mem_map.mp h1 with ⟨p, hp, hpo⟩
  rw [Db.iter_unspent] at hp
  rcases List.mem_map.mp hp with ⟨u, hu, hup⟩
  rw [← hpo, ← hup]
  exact List.mem_map.mpr ⟨u, List.mem_of_mem_filter hu, rfl⟩

/-- C3: consumed outpoints are marked spent only after broadcast succeeds:
a rejected broadcast returns an error with the ledger unchanged (the same
outputs remain selectable), a successful broadcast returns the built
transaction and every one of its inputs' outpoints ends up marked spent. -/
theorem send_broadcast_ordering (env : SendEnv) (sk : Nat)
    (payee s : Script) (amount : Nat) (db : Db) :
    (env.broadcastOk (builtTx env sk payee amount s db) = false →
      (send env sk payee amount s db).1 = db
      ∧ (send env sk payee amount s db).2.isOk = false)
    ∧ (¬ sendTotal s db < amount →
       ¬ sendTotal s db - amount < sendFee payee s db →
       env.broadcastOk (builtTx env sk payee amount s db) = true →
       (send env sk payee amount s db).2
         = .ok (builtTx env sk payee amount s db))
    ∧ (∀ tx, (send env sk payee amount s db).2 = .ok tx →
        ∀ txin ∈ tx.input,
          outpointSpent (send env sk payee amount s db).1
            txin.previous_output) := by
  have hsound := markAllSpent_sound (builtTx env sk payee amount s db).input db
    (builtTx_inputs_mem env sk payee s amount db)
  have hmark : markAllSpent db (builtTx env sk payee amount s db).input
      = ((markAllSpent db (builtTx env sk payee amount s db).input).1,
         .ok ()) := by
    rw [← hsound.1]
  refine ⟨?_, ?_, ?_⟩
  · intro hb
    unfold send
    by_cases h1 : sendTotal s db < amount
    · simp [h1, Except.isOk, Except.toBool]
    · by_cases h2 : sendTotal s db - amount < sendFee payee s db
      · simp [h1, h2, Except.isOk, Except.toBool]
      · simp [h1, h2, hb, Except.isOk, Except.toBool]
  · intro h1 h2 hb
    unfold send
    rw [if_neg h1, if_neg h2, if_pos hb, hmark]
  · intro tx htx txin htxin
    have htx' := send_ok_tx env sk payee s amount db tx htx
    subst htx'
    unfold send at htx ⊢
    by_cases h1 : sendTotal s db < amount
    · simp [h1] at htx
    · by_cases h2 : sendTotal s db - amount < sendFee payee s db
      · simp [h1, h2] at htx
      · by_cases hb : env.broadcastOk (builtTx env sk payee amount s db)
        · rw [if_neg h1, if_neg h2, if_pos hb, hmark]
          exact hsound.2.2.2.1 txin htxin
        · simp [h1, h2, hb] at htx


theorem map_proj_enumFrom {α : Type} (pr : TxInM → α) (g : Nat × TxInM → TxInM)
    (hg : ∀ p, pr (g p) = pr p.2) :
    ∀ (m : List TxInM) (n : Nat),
      ((List.enumFrom n m).map g).map pr = m.map pr := by
  intro m
  induction m with
  | nil => intro n; rfl
  | cons t rest ih =>
    intro n
    simp only [List.enumFrom, List.map_cons, hg, ih (n + 1)]

theorem get?_enumFrom_map (g : Nat × TxInM → TxInM) :
    ∀ (m : List TxInM) (n i : Nat),
      ((List.enumFrom n m).map g).get? i
        = (m.get? i).map fun t => g (n + i, t) := by
  intro m
  induction m with
  | nil => intro n i; rfl
  | cons t rest ih =>
    intro n i
    cases i with
    | zero => simp [List.enumFrom]
    | succ j =>
      simp only [List.enumFrom, List.map_cons, List.get?_cons_succ, ih (n + 1) j]
      have : n + 1 + j = n + (j + 1) := by omega
      rw [this]

theorem signAllInputs_get? (env : SendEnv) (k : Nat) (pv : List TxOutM)
    (tx : TxM) (i : Nat) :
    (signAllInputs env k pv tx).input.get? i
      = (tx.input.get? i).map fun t =>
          { t with witness := [(env.signSchnorr k
              (env.sighashFn tx.version tx.lock_time
                (tx.input.map fun t => (t.previous_output, t.sequence))
                tx.output pv i TapSighashType.default)).val] } := by
  simp only [signAllInputs]
  rw [show tx.input.enum = List.enumFrom 0 tx.input from rfl, get?_enumFrom_map]
  cases h : tx.input.get? i <;> simp [Nat.zero_add]

theorem signAllInputs_poseq (env : SendEnv) (k : Nat) (pv : List TxOutM)
    (tx : TxM) :
    ((signAllInputs env k pv tx).input.map
        fun t => (t.previous_output, t.sequence))
      = tx.input.map fun t => (t.previous_output, t.sequence) := by
  simp only [signAllInputs]
  rw [show tx.input.enum = List.enumFrom 0 tx.input from rfl]
  apply map_proj_enumFrom
  intro p
  rfl

theorem signAllInputs_output (env : SendEnv) (k : Nat) (pv : List TxOutM)
    (tx : TxM) : (signAllInputs env k pv tx).output = tx.output := rfl

/-- In every transaction a successful `send` returns, the witness of input
`i` is the lone schnorr signature, made with the tap-tweaked key, of the
taproot key-spend sighash of the whole transaction over the full prevout
list with sighash type `Default`. -/
theorem send_ok_witness_eq (env : SendEnv) (sk : Nat) (payee s : Script)
    (amount : Nat) (db : Db) (tx : TxM)
    (h : (send env sk payee amount s db).2 = .ok tx) :
    ∀ i txin, tx.input.get? i = some txin →
      txin.witness
        = [(env.signSchnorr (env.tapTweak sk)
            (env.sighashFn 2 0
              (tx.input.map fun t => (t.previous_output, t.sequence))
              tx.output (sendPrevouts s db) i TapSighashType.default)).val] := by
  have htx := send_ok_tx env sk payee s amount db tx h
  subst htx
  intro i txin hget
  simp only [builtTx] at hget ⊢
  rw [signAllInputs_get?] at hget
  rw [signAllInputs_poseq, signAllInputs_output]
  dsimp only at hget ⊢
  rcases hmap : (buildTxins s db.iter_unspent).1.get? i with _ | t
  · rw [hmap] at hget
    exact Option.noConfusion hget
  · rw [hmap] at hget
    simp only [Option.map_some'] at hget
    cases hget
    rfl

/-- C4: for every input index `i` of a successfully sent transaction, the
signed message is the taproot key-path sighash with type `Default` over the
complete prevout list of all inputs, the signer is the tap-tweaked wallet
key, and the witness is exactly one element: the 64-byte schnorr
signature — no script, no control block. -/
theorem send_taproot_keypath_witness (env : SendEnv) (sk : Nat)
    (payee s : Script) (amount : Nat) (db : Db) (tx : TxM)
    (h : (send env sk payee amount s db).2 = .ok tx) :
    (sendPrevouts s db).length = tx.input.length
    ∧ ∀ i txin, tx.input.get? i = some txin →
        txin.witness
          = [(env.signSchnorr (env.tapTweak sk)
              (env.sighashFn 2 0
                (tx.input.map fun t => (t.previous_output, t.sequence))
                tx.output (sendPrevouts s db) i TapSighashType.default)).val]
        ∧ txin.witness.length = 1
        ∧ ∀ w ∈ txin.witness, w.length = 64 := by
  have hw := send_ok_witness_eq env sk payee s amount db tx h
  have htx := send_ok_tx env sk payee s amount db tx h
  constructor
  · subst htx
    rw [builtTx]
    simp [signAllInputs, sendPrevouts_eq, buildTxins_eq]
  · intro i txin hget
    refine ⟨hw i txin hget, ?_, ?_⟩
    · rw [hw i txin hget]
      rfl
    · intro w hwmem
      rw [hw i txin hget] at hwmem
      rcases List.mem_singleton.mp hwmem with rfl
      exact (env.signSchnorr (env.tapTweak sk) _).property

/-- C10: every previous output that `send` presents to the sighash
computation is reconstructed locally — the wallet's own locking script
paired with the value recorded in the ledger — and nothing else; the
signatures in a successful send commit to exactly this reconstructed list,
so they are valid only if the ledger entries match the chain. -/
theorem send_prevouts_reconstructed (env : SendEnv) (sk : Nat)
    (payee s : Script) (amount : Nat) (db : Db) (tx : TxM) :
    sendPrevouts s db
      = db.iter_unspent.map
          (fun p => ({ script_pubkey := s, value := p.2 } : TxOutM))
    ∧ (∀ t ∈ sendPrevouts s db, t.script_pubkey = s)
    ∧ ((send env sk payee amount s db).2 = .ok tx →
        ∀ i txin, tx.input.get? i = some txin →
          txin.witness
            = [(env.signSchnorr (env.tapTweak sk)
                (env.sighashFn 2 0
                  (tx.input.map fun t => (t.previous_output, t.sequence))
                  tx.output
                  (db.iter_unspent.map fun p =>
                    ({ script_pubkey := s, value := p.2 } : TxOutM))
                  i TapSighashType.default)).val]) := by
  refine ⟨sendPrevouts_eq s db, ?_, ?_⟩
  · intro t ht
    rw [sendPrevouts_eq] at ht
    rcases List.mem_map.mp ht with ⟨p, _, rfl⟩
    rfl
  · intro h i txin hget
    have hw := send_ok_witness_eq env sk payee s amount db tx h i txin hget
    rw [hw, sendPrevouts_eq]

/-- The witness of `send_broadcast_ordering`: against a rejecting node, the
254-satoshi ledger is returned unchanged and `send` reports failure. -/
theorem send_broadcast_ordering_witness :
    (send rejectEnv 0 payeeW 100 ownW dbOne).1 = dbOne
    ∧ (send rejectEnv 0 payeeW 100 ownW dbOne).2.isOk = false :=
  (send_broadcast_ordering rejectEnv 0 payeeW ownW 100 dbOne).1 rfl


/-- A default transaction input used only to extract a concrete witness. -/
def txinDef : TxInM :=
  { previous_output := { txid := 0, vout := 0 }, sequence := 0,
    script_sig := [], witness := [] }

/-- The first input of the witness-scenario transaction. -/
def txinW : TxInM := (txW.input.get? 0).getD txinDef

/-- The witness of `send_taproot_keypath_witness`, evaluated on the
one-input scenario. -/
theorem send_taproot_keypath_witness_witness :
    txinW.witness
      = [(trivEnv.signSchnorr (trivEnv.tapTweak 0)
          (trivEnv.sighashFn 2 0
            (txW.input.map fun t => (t.previous_output, t.sequence))
            txW.output (sendPrevouts ownW dbOne) 0 TapSighashType.default)).val] :=
  ((send_taproot_keypath_witness trivEnv 0 payeeW ownW 100 dbOne txW rfl).2
    0 txinW rfl).1

/-- The witness of `send_prevouts_reconstructed`, evaluated on the
one-input scenario: the signed message commits to the prevout list rebuilt
from the owned script and the ledger value. -/
theorem send_prevouts_reconstructed_witness :
    txinW.witness
      = [(trivEnv.signSchnorr (trivEnv.tapTweak 0)
          (trivEnv.sighashFn 2 0
            (txW.input.map fun t => (t.previous_output, t.sequence))
            txW.output
            (dbOne.iter_unspent.map fun p =>
              ({ script_pubkey := ownW, value := p.2 } : TxOutM))
            0 TapSighashType.default)).val] :=
  (send_prevouts_reconstructed trivEnv 0 payeeW ownW 100 dbOne txW).2.2
    rfl 0 txinW rfl

/-! Helper lemmas about the scanner. -/

theorem collectResults_append (xs ys : List (Except Err (OutPt × Nat))) :
    collectResults (xs ++ ys)
      = match collectResults xs with
        | .error e => .error e
        | .ok l =>
          match collectResults ys with
          | .error e => .error e
          | .ok l2 => .ok (l ++ l2) := by
  induction xs with
  | nil =>
    simp only [List.nil_append, collectResults]
    cases collectResults ys <;> rfl
  | cons x rest ih =>
    cases x with
    | error e => rfl
    | ok p =>
      have hstep : collectResults ((Except.ok p :: rest) ++ ys)
          = match collectResults (rest ++ ys) with
            | .error e => .error e
            | .ok l => .ok (p :: l) := rfl
      have hstep2 : collectResults (Except.ok p :: rest)
          = match collectResults rest with
            | .error e => .error e
            | .ok l => .ok (p :: l) := rfl
      rw [hstep, ih, hstep2]
      cases hr : collectResults rest with
      | error e => rfl
      | ok l =>
        cases hy : collectResults ys with
        | error e => rfl
        | ok l2 => rfl

theorem collectResults_map_ok (l : List (OutPt × Nat)) :
    collectResults (l.map .ok) = .ok l := by
  induction l with
  | nil => rfl
  | cons p rest ih => simp [collectResults, ih]

theorem collect_stream_ok (gB : Nat → Except Err Block) (s : Script) :
    ∀ (H : List Nat) (l : List (OutPt × Nat)),
      collectResults (H.flatMap fun h =>
        match gB h with
        | .ok b => (b.txdata.flatMap (txMatches s)).map .ok
        | .error e => [.error e]) = .ok l →
      l = H.flatMap fun h =>
        match gB h with
        | .ok b => b.txdata.flatMap (txMatches s)
        | .error _ => [] := by
  intro H
  induction H with
  | nil =>
    intro l hl
    simp only [List.flatMap_nil, collectResults] at hl
    cases hl
    rfl
  | cons h rest ih =>
    intro l hl
    rw [List.flatMap_cons, collectResults_append] at hl
    cases hb : gB h with
    | error e =>
      rw [hb] at hl
      simp only [collectResults] at hl
      exact Except.noConfusion hl
    | ok b =>
      rw [hb, collectResults_map_ok] at hl
      cases hrest : collectResults (rest.flatMap fun h =>
          match gB h with
          | .ok b => (b.txdata.flatMap (txMatches s)).map .ok
          | .error e => [.error e]) with
      | error e =>
        rw [hrest] at hl
        cases hl
      | ok l2 =>
        rw [hrest] at hl
        cases hl
        rw [List.flatMap_cons, hb, ih l2 hrest]

theorem collect_scanResults_ok (gB : Nat → Except Err Block) (s : Script)
    (a b : Nat) (l : List (OutPt × Nat))
    (h : collectResults (scanResults gB s a b) = .ok l) :
    l = matchedOutputs gB s a b :=
  collect_stream_ok gB s (heightsRange a b) l h

theorem mem_heightsRange (a b h : Nat) :
    h ∈ heightsRange a b ↔ a + 1 ≤ h ∧ h ≤ b := by
  rw [heightsRange, List.mem_range'_1]
  omega

theorem mem_outputMatches (s : Script) (txid : Nat) :
    ∀ (l : List TxOutM) (k : Nat) (p : OutPt × Nat),
      p ∈ outputMatches s txid k l
      ↔ ∃ j o, l.get? j = some o ∧ o.script_pubkey = s
          ∧ p = ({ txid := txid, vout := k + j }, o.value) := by
  intro l
  induction l with
  | nil =>
    intro k p
    simp [outputMatches]
  | cons o rest ih =>
    intro k p
    simp only [outputMatches, List.mem_append]
    constructor
    · intro hp
      rcases hp with h1 | h2
      · by_cases hs : o.script_pubkey = s
        · rw [if_pos hs] at h1
          rcases List.mem_singleton.mp h1 with rfl
          exact ⟨0, o, rfl, hs, by simp⟩
        · rw [if_neg hs] at h1
          exact absurd h1 (List.not_mem_nil p)
      · rcases (ih (k + 1) p).mp h2 with ⟨j, o2, hget, hs, hp2⟩
        refine ⟨j + 1, o2, by simpa using hget, hs, ?_⟩
        rw [hp2]
        have : k + 1 + j = k + (j + 1) := by omega
        rw [this]
    · rintro ⟨j, o2, hget, hs, hp2⟩
      cases j with
      | zero =>
        left
        rw [List.get?_cons_zero] at hget
        cases hget
        rw [if_pos hs, hp2]
        simp
      | succ j2 =>
        right
        refine (ih (k + 1) p).mpr ⟨j2, o2, by simpa using hget, hs, ?_⟩
        rw [hp2]
        have : k + (j2 + 1) = k + 1 + j2 := by omega
        rw [this]

theorem mem_txMatches (s : Script) (tx : ChainTx) (txid i v : Nat) :
    (({ txid := txid, vout := i } : OutPt), v) ∈ txMatches s tx
    ↔ txid = tx.txid ∧ ∃ o, tx.output.get? i = some o
        ∧ o.script_pubkey = s ∧ o.value = v := by
  rw [txMatches, mem_outputMatches]
  constructor
  · rintro ⟨j, o, hget, hs, heq⟩
    simp only [Prod.mk.injEq, OutPt.mk.injEq, Nat.zero_add] at heq
    rcases heq with ⟨⟨h1, h2⟩, h3⟩
    subst h2
    exact ⟨h1, o, hget, hs, h3.symm⟩
  · rintro ⟨h1, o, hget, hs, hv⟩
    subst h1
    exact ⟨i, o, hget, hs, by simp [hv]⟩

theorem mem_matchedOutputs (gB : Nat → Except Err Block) (s : Script)
    (a b : Nat) (p : OutPt × Nat) :
    p ∈ matchedOutputs gB s a b
    ↔ ∃ h, a + 1 ≤ h ∧ h ≤ b ∧ ∃ blk, gB h = .ok blk
        ∧ ∃ tx ∈ blk.txdata, p ∈ txMatches s tx := by
  rw [matchedOutputs, List.mem_flatMap]
  constructor
  · rintro ⟨h, hh, hp⟩
    cases hb : gB h with
    | error e =>
      rw [hb] at hp
      exact absurd hp (List.not_mem_nil p)
    | ok blk =>
      rw [hb] at hp
      rcases List.mem_flatMap.mp hp with ⟨tx, htx, hptx⟩
      rcases (mem_heightsRange a b h).mp hh with ⟨h1, h2⟩
      exact ⟨h, h1, h2, blk, hb, tx, htx, hptx⟩
  · rintro ⟨h, h1, h2, blk, hb, tx, htx, hptx⟩
    refine ⟨h, (mem_heightsRange a b h).mpr ⟨h1, h2⟩, ?_⟩
    rw [hb]
    exact List.mem_flatMap.mpr ⟨tx, htx, hptx⟩

/-- C5: a successful `scan` visits exactly the heights
`lastWatermark + 1 .. toHeight`, records an `(outpoint, value)` pair for an
output if and only if its locking script equals the wallet script, and the
resulting ledger is the old one with the matched outputs upserted and the
watermark advanced to `toHeight`. -/
theorem scan_visits_and_upserts (gB : Nat → Except Err Block)
    (script : Script) (cur : Nat) (db : Db)
    (h : (scan gB script cur db).2 = .ok ()) :
    (scan gB script cur db).1
      = { db.upsertAll (matchedOutputs gB script db.last_height cur) with
          last_height := cur }
    ∧ ∀ txid i v,
        (({ txid := txid, vout := i } : OutPt), v)
            ∈ matchedOutputs gB script db.last_height cur
        ↔ ∃ hh, db.last_height + 1 ≤ hh ∧ hh ≤ cur
            ∧ ∃ blk, gB hh = .ok blk
            ∧ ∃ tx ∈ blk.txdata, tx.txid = txid
            ∧ ∃ o, tx.output.get? i = some o
              ∧ o.script_pubkey = script ∧ o.value = v := by
  constructor
  · unfold scan scanCore Db.store_txos at h ⊢
    rcases hc : collectResults
        (scanResults gB script db.get_last_height cur) with e | l
    · rw [hc] at h
      simp at h
    · rw [collect_scanResults_ok gB script db.get_last_height cur l hc]
      rfl
  · intro txid i v
    rw [mem_matchedOutputs]
    constructor
    · rintro ⟨hh, h1, h2, blk, hb, tx, htx, hptx⟩
      rcases (mem_txMatches script tx txid i v).mp hptx with ⟨heq, o, hget, hs, hv⟩
      exact ⟨hh, h1, h2, blk, hb, tx, htx, heq.symm, o, hget, hs, hv⟩
    · rintro ⟨hh, h1, h2, blk, hb, tx, htx, htxid, o, hget, hs, hv⟩
      exact ⟨hh, h1, h2, blk, hb, tx, htx,
        (mem_txMatches script tx txid i v).mpr ⟨htxid.symm, o, hget, hs, hv⟩⟩

/-- The wallet script of the scan witness scenario. -/
def sW : Script := [81, 9]

/-- A block containing one transaction with one output locked to `sW`
(5_000_000 satoshi) and one foreign output. -/
def blockW : Block :=
  { txdata := [{ txid := 7,
                 output := [{ script_pubkey := sW, value := 5000000 },
                            { script_pubkey := [81, 8], value := 3 }] }] }

/-- A node that serves `blockW` at height 1 and fails elsewhere. -/
def gBW : Nat → Except Err Block :=
  fun h => if h = 1 then .ok blockW else .error (.fetchBlock h)

/-- A node on which every block retrieval fails. -/
def gBfailW : Nat → Except Err Block := fun h => .error (.fetchBlock h)

/-- The witness of `scan_visits_and_upserts`: scanning height 1 from the
empty ledger upserts the matched outputs and advances the watermark, and the
5_000_000-satoshi output at `(txid 7, vout 0)` is among them. -/
theorem scan_visits_and_upserts_witness :
    (scan gBW sW 1 dbEmpty).1
      = { dbEmpty.upsertAll (matchedOutputs gBW sW 0 1) with last_height := 1 }
    ∧ (({ txid := 7, vout := 0 } : OutPt), 5000000)
        ∈ matchedOutputs gBW sW 0 1 :=
  ⟨(scan_visits_and_upserts gBW sW 1 dbEmpty rfl).1, by decide⟩

/-- C6: the watermark is monotone: a successful scan (over the range bounded
above by the node's best height, itself at least the stored watermark) never
decreases `last_height`; a failed scan — any block retrieval failure aborts
the whole scan — leaves the ledger, watermark included, unchanged. -/
theorem scan_watermark_monotone (gB : Nat → Except Err Block)
    (script : Script) (cur : Nat) (db : Db) (hcur : db.last_height ≤ cur) :
    ((scan gB script cur db).2.isOk = true →
      db.last_height ≤ ((scan gB script cur db).1).last_height)
    ∧ ((scan gB script cur db).2.isOk = false →
      (scan gB script cur db).1 = db) := by
  unfold scan scanCore Db.store_txos
  rcases hc : collectResults
      (scanResults gB script db.get_last_height cur) with e | l
  · refine ⟨fun hh => ?_, fun _ => rfl⟩
    simp [Except.isOk, Except.toBool] at hh
  · refine ⟨fun _ => hcur, fun hh => ?_⟩
    simp [Except.isOk, Except.toBool] at hh

/-- The witness of `scan_watermark_monotone`: a successful scan to height 1
does not decrease the empty ledger's watermark, and an all-failing scan to
height 2 leaves the ledger unchanged. -/
theorem scan_watermark_monotone_witness :
    dbEmpty.last_height ≤ (scan gBW sW 1 dbEmpty).1.last_height
    ∧ (scan gBfailW sW 2 dbEmpty).1 = dbEmpty :=
  ⟨(scan_watermark_monotone gBW sW 1 dbEmpty (by decide)).1 rfl,
   (scan_watermark_monotone gBfailW sW 2 dbEmpty (by decide)).2 rfl⟩

/-! Helper lemmas about `upsert`. -/

theorem upsert_of_mem (db : Db) (o : OutPt) (v : Nat)
    (h : o ∈ db.utxos.map Utxo.outpoint) : db.upsert o v = db := by
  have hany : db.utxos.any (fun u => u.outpoint = o) = true := by
    simp only [List.any_eq_true, decide_eq_true_eq]
    rcases List.mem_map.mp h with ⟨u, hu, rfl⟩
    exact ⟨u, hu, rfl⟩
  simp [Db.upsert, hany]

theorem upsert_outpoint_mono (db : Db) (o2 o : OutPt) (v : Nat)
    (h : o2 ∈ db.utxos.map Utxo.outpoint) :
    o2 ∈ (db.upsert o v).utxos.map Utxo.outpoint := by
  unfold Db.upsert
  split
  · exact h
  · simp only [List.map_append]
    exact List.mem_append_left _ h

theorem upsert_outpoint_self (db : Db) (o : OutPt) (v : Nat) :
    o ∈ (db.upsert o v).utxos.map Utxo.outpoint := by
  unfold Db.upsert
  split
  · next hany =>
    simp only [List.any_eq_true, decide_eq_true_eq] at hany
    rcases hany with ⟨u, hu, huo⟩
    exact List.mem_map.mpr ⟨u, hu, huo⟩
  · simp

theorem upsertAll_outpoint_mono (l : List (OutPt × Nat)) :
    ∀ (db : Db) (o2 : OutPt), o2 ∈ db.utxos.map Utxo.outpoint →
      o2 ∈ (db.upsertAll l).utxos.map Utxo.outpoint := by
  induction l with
  | nil => intro db o2 h; exact h
  | cons q rest ih =>
    intro db o2 h
    have hstep : db.upsertAll (q :: rest)
        = (db.upsert q.1 q.2).upsertAll rest := rfl
    rw [hstep]
    exact ih _ o2 (upsert_outpoint_mono db o2 q.1 q.2 h)

theorem mem_upsertAll (l : List (OutPt × Nat)) :
    ∀ (db : Db) (p : OutPt × Nat), p ∈ l →
      p.1 ∈ (db.upsertAll l).utxos.map Utxo.outpoint := by
  induction l with
  | nil =>
    intro db p hp
    exact absurd hp (List.not_mem_nil p)
  | cons q rest ih =>
    intro db p hp
    have hstep : db.upsertAll (q :: rest)
        = (db.upsert q.1 q.2).upsertAll rest := rfl
    rw [hstep]
    rcases List.mem_cons.mp hp with rfl | hr
    · exact upsertAll_outpoint_mono rest _ p.1
        (upsert_outpoint_self db p.1 p.2)
    · exact ih _ p hr

theorem upsertAll_of_mem (l : List (OutPt × Nat)) :
    ∀ (db : Db), (∀ p ∈ l, p.1 ∈ db.utxos.map Utxo.outpoint) →
      db.upsertAll l = db := by
  induction l with
  | nil => intro db _; rfl
  | cons q rest ih =>
    intro db h
    have hstep : db.upsertAll (q :: rest)
        = (db.upsert q.1 q.2).upsertAll rest := rfl
    have hq : db.upsert q.1 q.2 = db :=
      upsert_of_mem db q.1 q.2 (h q (List.mem_cons_self q rest))
    rw [hstep, hq]
    exact ih db (fun p hp => h p (List.mem_cons_of_mem q hp))

/-- C7: re-scanning the same height range over the same blocks is
idempotent: after one successful scan of `[a, b]`, scanning `[a, b]` again
succeeds and leaves the ledger state — owned outputs, spent flags, balance
and watermark — exactly as it was, because upserting a present outpoint
changes nothing. -/
theorem scan_rescan_idempotent (gB : Nat → Except Err Block)
    (script : Script) (a b : Nat) (db : Db)
    (h : (scanCore gB script a b db).2.isOk = true) :
    scanCore gB script a b ((scanCore gB script a b db).1)
      = ((scanCore gB script a b db).1, .ok ())
    ∧ ((scanCore gB script a b ((scanCore gB script a b db).1)).1).utxos
        = ((scanCore gB script a b db).1).utxos
    ∧ balance ((scanCore gB script a b ((scanCore gB script a b db).1)).1)
        = balance ((scanCore gB script a b db).1) := by
  have hstore : ∀ (d : Db) (l : List (OutPt × Nat)),
      collectResults (scanResults gB script a b) = .ok l →
      scanCore gB script a b d
        = ({ d.upsertAll l with last_height := b }, .ok ()) := by
    intro d l hl
    unfold scanCore Db.store_txos
    rw [hl]
  rcases hc : collectResults (scanResults gB script a b) with e | l
  · exfalso
    unfold scanCore Db.store_txos at h
    rw [hc] at h
    simp [Except.isOk, Except.toBool] at h
  · have hone := hstore db l hc
    have hmem : ∀ p ∈ l,
        p.1 ∈ ((scanCore gB script a b db).1).utxos.map Utxo.outpoint := by
      intro p hp
      rw [hone]
      exact mem_upsertAll l db p hp
    have htwo := hstore ((scanCore gB script a b db).1) l hc
    have hup : ((scanCore gB script a b db).1).upsertAll l
        = (scanCore gB script a b db).1 :=
      upsertAll_of_mem l _ hmem
    have hlast : ((scanCore gB script a b db).1).last_height = b := by
      rw [hone]
    have hsecond : scanCore gB script a b ((scanCore gB script a b db).1)
        = ((scanCore gB script a b db).1, .ok ()) := by
      rw [htwo, hup]
      cases hsplit : (scanCore gB script a b db).1 with
      | mk utxos lh =>
        rw [hsplit] at hlast
        simp only at hlast
        rw [hlast]
    exact ⟨hsecond, by rw [hsecond], by rw [hsecond]⟩

/-- The witness of `scan_rescan_idempotent`: re-scanning `[1, 1]` after the
successful witness scan returns the identical ledger. -/
theorem scan_rescan_idempotent_witness :
    scanCore gBW sW 0 1 ((scanCore gBW sW 0 1 dbEmpty).1)
      = ((scanCore gBW sW 0 1 dbEmpty).1, .ok ()) :=
  (scan_rescan_idempotent gBW sW 0 1 dbEmpty rfl).1

/-- Counterexample to the claim that `send` validates `amount > 0` before
doing anything else: with amount 0, a funded ledger and an accepting node,
`send` builds, signs and broadcasts a transaction and returns successfully
instead of failing. -/
theorem send_zero_amount_cex :
    (send trivEnv 0 payeeW 0 ownW dbOne).2
      = .ok (builtTx trivEnv 0 payeeW 0 ownW dbOne) := rfl

/-- C9 (amended): `send` performs no positivity check on the amount: for
every invocation with amount 0 whose unspent total covers the fee and whose
broadcast is accepted, `send` succeeds, having built and broadcast a
transaction whose payment output carries value 0 and whose change output
carries `total - fee`. -/
theorem send_zero_amount_no_validation (env : SendEnv) (sk : Nat)
    (payee s : Script) (db : Db)
    (h2 : ¬ sendTotal s db < sendFee payee s db)
    (h3 : env.broadcastOk (builtTx env sk payee 0 s db) = true) :
    (send env sk payee 0 s db).2 = .ok (builtTx env sk payee 0 s db)
    ∧ (builtTx env sk payee 0 s db).output.map TxOutM.value
        = [0, sendTotal s db - sendFee payee s db] := by
  constructor
  · have hsound := markAllSpent_sound (builtTx env sk payee 0 s db).input db
      (builtTx_inputs_mem env sk payee s 0 db)
    have hmark : markAllSpent db (builtTx env sk payee 0 s db).input
        = ((markAllSpent db (builtTx env sk payee 0 s db).input).1, .ok ()) := by
      rw [← hsound.1]
    unfold send
    have h1 : ¬ sendTotal s db < 0 := by omega
    have h2s : ¬ sendTotal s db - 0 < sendFee payee s db := by omega
    rw [if_neg h1, if_neg h2s, if_pos h3, hmark]
  · simp [builtTx, signAllInputs]

/-- The witness of `send_zero_amount_no_validation`: a zero-amount send from
the 254-satoshi ledger succeeds, paying 0 and returning 100 as change. -/
theorem send_zero_amount_no_validation_witness :
    (send trivEnv 0 payeeW 0 ownW dbOne).2
      = .ok (builtTx trivEnv 0 payeeW 0 ownW dbOne)
    ∧ (builtTx trivEnv 0 payeeW 0 ownW dbOne).output.map TxOutM.value
        = [0, 100] :=
  ⟨(send_zero_amount_no_validation trivEnv 0 payeeW ownW dbOne
      (by decide) rfl).1,
   by rw [(send_zero_amount_no_validation trivEnv 0 payeeW ownW dbOne
      (by decide) rfl).2]; rfl⟩

end PicoWallet
